import Mathlib

/-!
Shallow embedding of `src/voter/voting_round.rs` from `finality-grandpa`:
the per-round voting driver — its phase state machine (`State`), vote
intake (`handle_vote`), primary proposal (`primary_propose`), the stubbed
prevote/precommit deciders, and the main loop (`run`) with its completion
and finalization safety check.

The external collaborators (the Round Ledger and the Environment) are
modelled as records of functions, following the contracts given in the
specification. Asynchronous input is modelled as one explicit input event
per loop iteration (an incoming signed message, a previous-round-state
update, or the current phase timer firing), and the driver's observable
side effects (Environment notifications and messages pushed to the
outgoing sink) are collected as an explicit event trace.
-/

namespace Grandpa

/-- A prevote for a block and its ancestors (crate type `Prevote`). -/
structure Prevote (H N : Type) where
  target_hash : H
  target_number : N
deriving DecidableEq

/-- A precommit for a block and its ancestors (crate type `Precommit`). -/
structure Precommit (H N : Type) where
  target_hash : H
  target_number : N
deriving DecidableEq

/-- A primary-proposed block hint (crate type `PrimaryPropose`). -/
structure PrimaryPropose (H N : Type) where
  target_hash : H
  target_number : N
deriving DecidableEq

/-- A protocol message within a round (crate type `Message`). -/
inductive Message (H N : Type) where
  | prevote : Prevote H N → Message H N
  | precommit : Precommit H N → Message H N
  | primaryPropose : PrimaryPropose H N → Message H N
deriving DecidableEq

/-- The `(hash, number)` target of a message (`Message::target`). -/
def Message.target {H N : Type} : Message H N → H × N
  | .prevote v => (v.target_hash, v.target_number)
  | .precommit v => (v.target_hash, v.target_number)
  | .primaryPropose v => (v.target_hash, v.target_number)

/-- A signed protocol message (crate type `SignedMessage`). -/
structure SignedMessage (H N S Id : Type) where
  message : Message H N
  signature : S
  id : Id
deriving DecidableEq

/-- Modelled from the spec: outcome of importing a vote into the external
Round Ledger (crate type `ImportResult`); only the optional equivocation
evidence is consumed by the driver. -/
structure ImportResult (Eqv : Type) where
  equivocation : Option Eqv
deriving DecidableEq

/-- Modelled from the spec: a read-only snapshot of another round's
progress (`crate::round::State`, aliased `RoundState` in the source),
holding the `estimate` and `finalized` pointers. -/
structure RoundState (H N : Type) where
  estimate : Option (H × N)
  finalized : Option (H × N)
deriving DecidableEq

/-- The state of a voting round (source enum `State<T>`). The timer
handles of type `T` are modelled by their observable status: a `Bool`
that is `true` once the timer future has terminated (fired). -/
inductive State where
  | start (prevote_timer precommit_timer : Bool)
  | proposed (prevote_timer precommit_timer : Bool)
  | prevoted (precommit_timer : Bool)
  | precommitted
deriving DecidableEq

/-- Whether we should vote in the current round (source enum `Voting`). -/
inductive Voting where
  | no
  | yes
  | primary
deriving DecidableEq

/-- Whether the voter should cast round votes (`Voting::is_active`). -/
def Voting.is_active : Voting → Bool
  | .yes => true
  | .primary => true
  | .no => false

/-- Whether the voter is the primary proposer (`Voting::is_primary`). -/
def Voting.is_primary : Voting → Bool
  | .primary => true
  | _ => false

/-- Modelled from the spec: the Round Ledger contract consumed by the
driver (`crate::round::Round`, which is external to this file), as functions
over an abstract ledger state `St`. `primaryVoter` is the id component
of `primary_voter()`. -/
structure Ledger (Id H N S Err Eqv St : Type) where
  import_prevote : St → Prevote H N → Id → S → Except Err (St × ImportResult Eqv)
  import_precommit : St → Precommit H N → Id → S → Except Err (St × ImportResult Eqv)
  completable : St → Bool
  finalized : St → Option (H × N)
  base : St → H × N
  number : St → Nat
  primaryVoter : St → Id

/-- Modelled from the spec: the Environment operations the driver calls
directly. `proposed` and the outgoing sink `send` may fail fatally; the
equivocation callbacks are fire-and-forget and appear only in the event
trace. -/
structure Env (H N Err : Type) where
  is_equal_or_descendent_of : H → H → Bool
  proposed : Nat → PrimaryPropose H N → Except Err Unit
  send : Message H N → Except Err Unit

/-- An observable side effect of the driver: an Environment notification
or a message pushed to the outgoing sink. -/
inductive Event (H N Eqv : Type) where
  | proposedNote (round : Nat) (p : PrimaryPropose H N)
  | prevoteEquiv (round : Nat) (e : Eqv)
  | precommitEquiv (round : Nat) (e : Eqv)
  | sent (m : Message H N)
deriving DecidableEq

/-- The driver state (source struct `VotingRound`). The Environment and
ledger operations are passed as function records; the stream handles are
modelled by the per-iteration input event; `best_finalized` is never read
or written by the modelled code and is omitted. `last_round_state` is the
snapshot that `run` moves into a local and keeps updated. -/
structure VotingRound (Id H N S Eqv St : Type) where
  voting : Voting
  round : St
  state : Option State
  primary_block : Option (H × N)
  last_round_state : Option (RoundState H N)
deriving DecidableEq

variable {Id H N S Err Eqv St : Type} [DecidableEq Id] [LinearOrder N]

/-- `VotingRound::handle_vote`: filter the message against the round
base, then import prevotes/precommits (reporting any equivocation) or
cache a primary-propose hint from the designated primary voter. -/
def handle_vote (L : Ledger Id H N S Err Eqv St) (env : Env H N Err)
    (self : VotingRound Id H N S Eqv St) (vote : SignedMessage H N S Id) :
    Except Err (VotingRound Id H N S Eqv St × List (Event H N Eqv)) :=
  if !(env.is_equal_or_descendent_of (L.base self.round).1 vote.message.target.1) then
    .ok (self, [])
  else
    match vote.message with
    | .prevote v =>
      match L.import_prevote self.round v vote.id vote.signature with
      | .error e => .error e
      | .ok (round2, import_result) =>
        match import_result.equivocation with
        | some e1 => .ok ({ self with round := round2 },
            [.prevoteEquiv (L.number round2) e1])
        | none => .ok ({ self with round := round2 }, [])
    | .precommit v =>
      match L.import_precommit self.round v vote.id vote.signature with
      | .error e => .error e
      | .ok (round2, import_result) =>
        match import_result.equivocation with
        | some e1 => .ok ({ self with round := round2 },
            [.precommitEquiv (L.number round2) e1])
        | none => .ok ({ self with round := round2 }, [])
    | .primaryPropose primary =>
      if vote.id = L.primaryVoter self.round then
        .ok ({ self with
               primary_block := some (primary.target_hash, primary.target_number) }, [])
      else
        .ok (self, [])

/-- The `should_send_primary` condition inside `primary_propose`: the
last round estimate has not been finalized, that is, either nothing is
finalized yet or the estimate's number is strictly above the finalized
block's number. -/
def should_send_primary (last_round_estimate : H × N)
    (maybe_finalized : Option (H × N)) : Bool :=
  match maybe_finalized with
  | none => true
  | some f => decide (f.2 < last_round_estimate.2)

/-- `VotingRound::primary_propose`: when this driver is the primary and
the previous round's estimate exists and is not yet covered by the
previous round's finalized block, notify the Environment and push the
hint on the outgoing sink, returning whether a hint was sent. -/
def primary_propose (L : Ledger Id H N S Err Eqv St) (env : Env H N Err)
    (self : VotingRound Id H N S Eqv St) (last_round_state : RoundState H N) :
    Except Err (Bool × List (Event H N Eqv)) :=
  match last_round_state.estimate, self.voting.is_primary with
  | some last_round_estimate, true =>
    if should_send_primary last_round_estimate last_round_state.finalized then
      match env.proposed (L.number self.round)
          ⟨last_round_estimate.1, last_round_estimate.2⟩ with
      | .error e => .error e
      | .ok _ =>
        match env.send (.primaryPropose
            ⟨last_round_estimate.1, last_round_estimate.2⟩) with
        | .error e => .error e
        | .ok _ =>
          .ok (true,
            [.proposedNote (L.number self.round)
               ⟨last_round_estimate.1, last_round_estimate.2⟩,
             .sent (.primaryPropose
               ⟨last_round_estimate.1, last_round_estimate.2⟩)])
    else
      .ok (false, [])
  | none, true => .ok (false, [])
  | _, _ => .ok (false, [])

/-- `VotingRound::prevote`: the prevote decider as it stands in the
source — it ignores both arguments and unconditionally answers `true`
without emitting anything. -/
def prevote (self : VotingRound Id H N S Eqv St) (prevote_timer_ready : Bool)
    (last_round_state : RoundState H N) : Except Err Bool :=
  Except.ok true

/-- `VotingRound::precommit`: the precommit decider as it stands in the
source — it ignores both arguments and unconditionally answers `true`
without emitting anything. -/
def precommit (self : VotingRound Id H N S Eqv St) (precommit_timer_ready : Bool)
    (last_round_state : RoundState H N) : Except Err Bool :=
  Except.ok true

/-- One input event consumed by an iteration of `run`'s select: an item
from the incoming stream, a previous-round-state update, or the current
phase's timer firing. -/
inductive Input (H N S Id Err : Type) where
  | vote (v : Except Err (SignedMessage H N S Id))
  | update (s : RoundState H N)
  | timer

/-- Mark the currently polled phase timer as terminated (the timer branch
of the source's select). In `Precommitted` (and with no phase) the select
polls a pending future, so nothing fires. -/
def fireTimer : Option State → Option State
  | some (.start _ pc) => some (.start true pc)
  | some (.proposed _ pc) => some (.proposed true pc)
  | some (.prevoted _) => some (.prevoted true)
  | s => s

/-- The `is_terminated` status of the timer the current phase polls
(prevote timer in `Start`/`Proposed`, precommit timer in `Prevoted`). -/
def timerReady : Option State → Bool
  | some (.start pv _) => pv
  | some (.proposed pv _) => pv
  | some (.prevoted pc) => pc
  | _ => false

/-- The source's `handle_inputs!` select: consume exactly one input
event — dispatch an incoming message to `handle_vote`, replace the
cached previous-round-state snapshot, or record the timer as fired. -/
def handle_inputs (L : Ledger Id H N S Err Eqv St) (env : Env H N Err)
    (self : VotingRound Id H N S Eqv St) (i : Input H N S Id Err) :
    Except Err (VotingRound Id H N S Eqv St × List (Event H N Eqv)) :=
  match i with
  | .vote (.error e) => .error e
  | .vote (.ok v) => handle_vote L env self v
  | .update s => .ok ({ self with last_round_state := some s }, [])
  | .timer => .ok ({ self with state := fireTimer self.state }, [])

/-- The phase-dispatch part of one iteration of `run`'s loop: run the
phase-specific decision logic against the current previous-round-state
snapshot and the timer-ready flag, producing the next phase. -/
def phase_transition (L : Ledger Id H N S Err Eqv St) (env : Env H N Err)
    (self : VotingRound Id H N S Eqv St) (timer_ready : Bool) :
    Except Err (VotingRound Id H N S Eqv St × List (Event H N Eqv)) :=
  match self.state with
  | some (.start pv pc) =>
    match self.last_round_state with
    | some lrs =>
      match primary_propose L env self lrs with
      | .error e => .error e
      | .ok (proposed, evs) =>
        match prevote self timer_ready lrs with
        | .error e => .error e
        | .ok prevoted =>
          if prevoted then .ok ({ self with state := some (.prevoted pc) }, evs)
          else if proposed then .ok ({ self with state := some (.proposed pv pc) }, evs)
          else .ok ({ self with state := some (.start pv pc) }, evs)
    | none => .ok ({ self with state := some (.start pv pc) }, [])
  | some (.proposed pv pc) =>
    match self.last_round_state with
    | some lrs =>
      match prevote self timer_ready lrs with
      | .error e => .error e
      | .ok prevoted =>
        if prevoted then .ok ({ self with state := some (.prevoted pc) }, [])
        else .ok ({ self with state := some (.proposed pv pc) }, [])
    | none => .ok ({ self with state := some (.proposed pv pc) }, [])
  | some (.prevoted pc) =>
    match self.last_round_state with
    | some lrs =>
      match precommit self timer_ready lrs with
      | .error e => .error e
      | .ok precommitted =>
        if precommitted then .ok ({ self with state := some .precommitted }, [])
        else .ok ({ self with state := some (.prevoted pc) }, [])
    | none => .ok ({ self with state := some (.prevoted pc) }, [])
  | some .precommitted => .ok ({ self with state := some .precommitted }, [])
  | none => .ok ({ self with state := none }, [])

/-- The completion safety check at the bottom of `run`'s loop: the
previous round's estimate counts as finalized when it is at or below the
previous round's own finalized block or at or below this round's
finalized block; with no snapshot at all the round may finish. -/
def last_round_estimate_finalized (L : Ledger Id H N S Err Eqv St)
    (self : VotingRound Id H N S Eqv St) : Bool :=
  match self.last_round_state with
  | some rs =>
    match rs.estimate, rs.finalized with
    | some le, some lf =>
      (decide (le.2 ≤ lf.2) ||
        (match L.finalized self.round with
         | some cf => decide (le.2 ≤ cf.2)
         | none => false))
    | _, _ => false
  | none => true

/-- Outcome of one loop iteration of `run`: a fatal error, a successful
return from `run`, or continue looping. The driver state at return is
carried for specification purposes. -/
inductive StepResult (Id H N S Err Eqv St : Type) where
  | fatal (e : Err) (evs : List (Event H N Eqv))
  | returned (self : VotingRound Id H N S Eqv St) (evs : List (Event H N Eqv))
  | continuing (self : VotingRound Id H N S Eqv St) (evs : List (Event H N Eqv))
deriving DecidableEq

/-- One iteration of `run`'s loop: consume one input event, run the
phase-specific logic, then apply the completion safety check. -/
def step (L : Ledger Id H N S Err Eqv St) (env : Env H N Err)
    (self : VotingRound Id H N S Eqv St) (i : Input H N S Id Err) :
    StepResult Id H N S Err Eqv St :=
  match handle_inputs L env self i with
  | .error e => .fatal e []
  | .ok (s1, evs1) =>
    match phase_transition L env s1 (timerReady s1.state) with
    | .error e => .fatal e evs1
    | .ok (s2, evs2) =>
      if L.completable s2.round && last_round_estimate_finalized L s2 then
        .returned s2 (evs1 ++ evs2)
      else
        .continuing s2 (evs1 ++ evs2)

/-- Outcome of driving `run` over a finite schedule of input events:
a fatal error, a successful return, or still looping when the schedule
runs out. -/
inductive RunResult (Id H N S Err Eqv St : Type) where
  | fatal (e : Err)
  | returned (self : VotingRound Id H N S Eqv St)
  | pending (self : VotingRound Id H N S Eqv St)
deriving DecidableEq

/-- `VotingRound::run` over a finite schedule of input events, together
with the trace of observable side effects. -/
def run (L : Ledger Id H N S Err Eqv St) (env : Env H N Err) :
    VotingRound Id H N S Eqv St → List (Input H N S Id Err) →
      RunResult Id H N S Err Eqv St × List (Event H N Eqv)
  | self, [] => (.pending self, [])
  | self, i :: rest =>
    match step L env self i with
    | .fatal e evs => (.fatal e, evs)
    | .returned s evs => (.returned s, evs)
    | .continuing s evs =>
      ((run L env s rest).1, evs ++ (run L env s rest).2)

/-- Position of a phase in the ordering
`Start < Proposed < Prevoted < Precommitted`. -/
def State.rank : State → Nat
  | .start _ _ => 0
  | .proposed _ _ => 1
  | .prevoted _ => 2
  | .precommitted => 3

/-- Number of `PrimaryPropose` messages pushed to the outgoing sink in a
trace. -/
def proposeCount (evs : List (Event H N Eqv)) : Nat :=
  (evs.filter fun e => match e with
    | .sent (.primaryPropose _) => true
    | _ => false).length

/-- Whether every message pushed to the outgoing sink in a trace is a
`PrimaryPropose` (no prevote or precommit is ever sent). -/
def only_primary_propose_sent (evs : List (Event H N Eqv)) : Bool :=
  evs.all fun e => match e with
    | .sent (.prevote _) => false
    | .sent (.precommit _) => false
    | _ => true

/-- Whether the driver is in the only phase from which `primary_propose`
is ever invoked (the `Start` phase, rank `0`). -/
def canPropose (self : VotingRound Id H N S Eqv St) : Bool :=
  Option.map State.rank self.state == some 0

/-! ### Concrete fixtures used to exercise the embedding -/

/-- A concrete ledger state for tests: completability flag, finalized
pointer, and whether the next prevote/precommit import detects an
equivocation. -/
structure TestSt where
  comp : Bool
  fin : Option (Nat × Nat)
  equivP : Bool
  equivC : Bool
deriving DecidableEq

/-- A concrete instantiation of the Round Ledger contract: round number
5, base block `(10, 10)`, designated primary voter `1`; imports keep the
ledger state and report an equivocation exactly when the corresponding
flag is set. -/
def testImportPrevote (st : TestSt) (v : Prevote Nat Nat) (id sig : Nat) :
    Except Unit (TestSt × ImportResult Unit) :=
  Except.ok (st, ⟨if st.equivP then some () else none⟩)

/-- Precommit import for the concrete ledger. -/
def testImportPrecommit (st : TestSt) (v : Precommit Nat Nat) (id sig : Nat) :
    Except Unit (TestSt × ImportResult Unit) :=
  Except.ok (st, ⟨if st.equivC then some () else none⟩)

def testLedger : Ledger Nat Nat Nat Nat Unit Unit TestSt where
  import_prevote := testImportPrevote
  import_precommit := testImportPrecommit
  completable := TestSt.comp
  finalized := TestSt.fin
  base := fun _ => (10, 10)
  number := fun _ => 5
  primaryVoter := fun _ => 1

/-- A concrete Environment: hash `t` descends from hash `b` exactly when
`b ≤ t`, and the notification hook and outgoing sink never fail. -/
def testEnv : Env Nat Nat Unit where
  is_equal_or_descendent_of := fun b t => decide (b ≤ t)
  proposed := fun _ _ => .ok ()
  send := fun _ => .ok ()

/-- Ledger state: not completable, nothing finalized, honest imports. -/
def st0 : TestSt := ⟨false, none, false, false⟩

/-- Ledger state whose next prevote import detects an equivocation. -/
def stEquiv : TestSt := ⟨false, none, true, false⟩

/-- Ledger state that is completable. -/
def stDone : TestSt := ⟨true, none, false, false⟩

/-- Previous-round snapshot: estimate block `(20, 20)`, nothing finalized. -/
def lrs20 : RoundState Nat Nat := ⟨some (20, 20), none⟩

/-- A non-primary driver in `Prevoted` with the precommit timer unfired. -/
def c2Self : VotingRound Nat Nat Nat Nat Unit TestSt :=
  ⟨Voting.yes, st0, some (State.prevoted false), none, some lrs20⟩

/-- `c2Self` after one loop iteration: advanced to `Precommitted`. -/
def c2After : VotingRound Nat Nat Nat Nat Unit TestSt :=
  ⟨Voting.yes, st0, some State.precommitted, none, some lrs20⟩

/-- A prevote targeting block `(5, 5)`, below the round base `(10, 10)`. -/
def lowVote : SignedMessage Nat Nat Nat Nat := ⟨.prevote ⟨5, 5⟩, 0, 2⟩

/-- A prevote targeting block `(15, 15)`, above the round base. -/
def midVote : SignedMessage Nat Nat Nat Nat := ⟨.prevote ⟨15, 15⟩, 0, 2⟩

/-- A primary-propose hint signed by voter `1`, the designated primary. -/
def hintVote : SignedMessage Nat Nat Nat Nat := ⟨.primaryPropose ⟨30, 30⟩, 0, 1⟩

/-- A driver on a completable ledger with no previous-round snapshot. -/
def doneSelf : VotingRound Nat Nat Nat Nat Unit TestSt :=
  ⟨Voting.yes, stDone, some State.precommitted, none, none⟩

/-- A primary driver in `Start` holding the `lrs20` snapshot. -/
def pSelf : VotingRound Nat Nat Nat Nat Unit TestSt :=
  ⟨Voting.primary, st0, some (State.start false false), none, some lrs20⟩

/-- `pSelf` after one loop iteration: proposed and advanced to `Prevoted`. -/
def pAfter : VotingRound Nat Nat Nat Nat Unit TestSt :=
  ⟨Voting.primary, st0, some (State.prevoted false), none, some lrs20⟩

/-- A driver in `Start` with no previous-round snapshot. -/
def noLrsSelf : VotingRound Nat Nat Nat Nat Unit TestSt :=
  ⟨Voting.yes, st0, some (State.start false false), none, none⟩

/-- `noLrsSelf` after its prevote timer fires: still in `Start`. -/
def noLrsAfter : VotingRound Nat Nat Nat Nat Unit TestSt :=
  ⟨Voting.yes, st0, some (State.start true false), none, none⟩

/-- A driver in `Precommitted` whose ledger reports an equivocation on
the next prevote import. -/
def preSelf : VotingRound Nat Nat Nat Nat Unit TestSt :=
  ⟨Voting.yes, stEquiv, some State.precommitted, none, some lrs20⟩

/-- `c2Self` with the primary hint target `(30, 30)` cached. -/
def c9After : VotingRound Nat Nat Nat Nat Unit TestSt :=
  ⟨Voting.yes, st0, some (State.prevoted false), some (30, 30), some lrs20⟩

/-! ### Helper lemmas -/

theorem set_state_self (s : VotingRound Id H N S Eqv St) (x : Option State)
    (h : s.state = x) : { s with state := x } = s := by
  cases s
  subst h
  rfl

theorem fireTimer_rank (s : Option State) :
    Option.map State.rank (fireTimer s) = Option.map State.rank s := by
  rcases s with _ | p
  · rfl
  · cases p <;> rfl

theorem rank_eq_zero {p : State} (h : p.rank = 0) : ∃ a b, p = .start a b := by
  cases p with
  | start a b => exact ⟨a, b, rfl⟩
  | proposed a b => simp [State.rank] at h
  | prevoted a => simp [State.rank] at h
  | precommitted => simp [State.rank] at h

theorem rank_eq_three {p : State} (h : p.rank = 3) : p = .precommitted := by
  cases p with
  | start a b => simp [State.rank] at h
  | proposed a b => simp [State.rank] at h
  | prevoted a => simp [State.rank] at h
  | precommitted => rfl

theorem handle_vote_ok {L : Ledger Id H N S Err Eqv St} {env : Env H N Err}
    {self : VotingRound Id H N S Eqv St} {vote : SignedMessage H N S Id}
    {s1 : VotingRound Id H N S Eqv St} {evs : List (Event H N Eqv)}
    (h : handle_vote L env self vote = .ok (s1, evs)) :
    s1.state = self.state ∧ s1.voting = self.voting ∧
    s1.last_round_state = self.last_round_state ∧
    proposeCount evs = 0 ∧ only_primary_propose_sent evs = true := by
  unfold handle_vote at h
  split at h
  · simp only [Except.ok.injEq, Prod.mk.injEq] at h
    obtain ⟨h1, h2⟩ := h
    subst h1; subst h2
    exact ⟨rfl, rfl, rfl, rfl, rfl⟩
  · split at h
    · split at h
      · exact (Except.noConfusion h)
      · split at h <;>
          · simp only [Except.ok.injEq, Prod.mk.injEq] at h
            obtain ⟨h1, h2⟩ := h
            subst h1; subst h2
            exact ⟨rfl, rfl, rfl, rfl, rfl⟩
    · split at h
      · exact (Except.noConfusion h)
      · split at h <;>
          · simp only [Except.ok.injEq, Prod.mk.injEq] at h
            obtain ⟨h1, h2⟩ := h
            subst h1; subst h2
            exact ⟨rfl, rfl, rfl, rfl, rfl⟩
    · split at h <;>
        · simp only [Except.ok.injEq, Prod.mk.injEq] at h
          obtain ⟨h1, h2⟩ := h
          subst h1; subst h2
          exact ⟨rfl, rfl, rfl, rfl, rfl⟩

theorem handle_inputs_ok {L : Ledger Id H N S Err Eqv St} {env : Env H N Err}
    {self : VotingRound Id H N S Eqv St} {i : Input H N S Id Err}
    {s1 : VotingRound Id H N S Eqv St} {evs : List (Event H N Eqv)}
    (h : handle_inputs L env self i = .ok (s1, evs)) :
    Option.map State.rank s1.state = Option.map State.rank self.state ∧
    s1.voting = self.voting ∧
    proposeCount evs = 0 ∧ only_primary_propose_sent evs = true := by
  cases i with
  | vote v =>
    cases v with
    | error e => exact (Except.noConfusion h)
    | ok v =>
      obtain ⟨h1, h2, h3, h4, h5⟩ := handle_vote_ok (h : handle_vote L env self v = .ok (s1, evs))
      exact ⟨by rw [h1], h2, h4, h5⟩
  | update s =>
    simp only [handle_inputs, Except.ok.injEq, Prod.mk.injEq] at h
    obtain ⟨h1, h2⟩ := h
    subst h1; subst h2
    exact ⟨rfl, rfl, rfl, rfl⟩
  | timer =>
    simp only [handle_inputs, Except.ok.injEq, Prod.mk.injEq] at h
    obtain ⟨h1, h2⟩ := h
    subst h1; subst h2
    exact ⟨fireTimer_rank self.state, rfl, rfl, rfl⟩

theorem should_send_primary_iff (est : H × N) (f : Option (H × N)) :
    should_send_primary est f = true ↔
      f = none ∨ ∃ f0, f = some f0 ∧ f0.2 < est.2 := by
  cases f with
  | none => simp [should_send_primary]
  | some f0 => simp [should_send_primary]

theorem primary_propose_ok {L : Ledger Id H N S Err Eqv St} {env : Env H N Err}
    {self : VotingRound Id H N S Eqv St} {lrs : RoundState H N}
    {b : Bool} {evs : List (Event H N Eqv)}
    (h : primary_propose L env self lrs = .ok (b, evs)) :
    (b = false → evs = []) ∧
    (b = true → self.voting.is_primary = true ∧ ∃ est, lrs.estimate = some est ∧
       should_send_primary est lrs.finalized = true ∧
       evs = [.proposedNote (L.number self.round) ⟨est.1, est.2⟩,
              .sent (.primaryPropose ⟨est.1, est.2⟩)]) ∧
    proposeCount evs ≤ 1 ∧ only_primary_propose_sent evs = true := by
  unfold primary_propose at h
  split at h
  case _ e hE hP =>
    split at h
    case isTrue hsend =>
      split at h
      · exact (Except.noConfusion h)
      · split at h
        · exact (Except.noConfusion h)
        · simp only [Except.ok.injEq, Prod.mk.injEq] at h
          obtain ⟨h1, h2⟩ := h
          subst h1; subst h2
          refine ⟨by intro hc; exact absurd hc (by simp), ?_, Nat.le_refl 1, rfl⟩
          intro _
          exact ⟨hP, e, hE, hsend, rfl⟩
    case isFalse hsend =>
      simp only [Except.ok.injEq, Prod.mk.injEq] at h
      obtain ⟨h1, h2⟩ := h
      subst h1; subst h2
      exact ⟨fun _ => rfl, by intro hc; exact absurd hc (by simp), Nat.zero_le 1, rfl⟩
  case _ =>
    simp only [Except.ok.injEq, Prod.mk.injEq] at h
    obtain ⟨h1, h2⟩ := h
    subst h1; subst h2
    exact ⟨fun _ => rfl, by intro hc; exact absurd hc (by simp), Nat.zero_le 1, rfl⟩
  case _ =>
    simp only [Except.ok.injEq, Prod.mk.injEq] at h
    obtain ⟨h1, h2⟩ := h
    subst h1; subst h2
    exact ⟨fun _ => rfl, by intro hc; exact absurd hc (by simp), Nat.zero_le 1, rfl⟩

theorem phase_transition_cases {L : Ledger Id H N S Err Eqv St} {env : Env H N Err}
    {s1 : VotingRound Id H N S Eqv St} {r : Bool}
    {s2 : VotingRound Id H N S Eqv St} {evs : List (Event H N Eqv)}
    (h : phase_transition L env s1 r = .ok (s2, evs)) :
    (s1.state = none ∧ s2 = s1 ∧ evs = []) ∨
    (s1.last_round_state = none ∧ s2 = s1 ∧ evs = []) ∨
    (∃ lrs pv pc b, s1.state = some (.start pv pc) ∧
       s1.last_round_state = some lrs ∧
       primary_propose L env s1 lrs = .ok (b, evs) ∧
       s2 = { s1 with state := some (.prevoted pc) }) ∨
    (∃ pv pc, s1.state = some (.proposed pv pc) ∧ evs = [] ∧
       s2 = { s1 with state := some (.prevoted pc) }) ∨
    (∃ pc, s1.state = some (.prevoted pc) ∧ evs = [] ∧
       s2 = { s1 with state := some .precommitted }) ∨
    (s1.state = some .precommitted ∧ s2 = s1 ∧ evs = []) := by
  unfold phase_transition at h
  split at h
  case _ pv pc hst =>
    split at h
    case _ lrs hlrs =>
      split at h
      · exact (Except.noConfusion h)
      case _ proposed evs0 hpp =>
        simp only [prevote, if_true] at h
        simp only [Except.ok.injEq, Prod.mk.injEq] at h
        obtain ⟨h1, h2⟩ := h
        subst h2
        exact Or.inr (Or.inr (Or.inl ⟨lrs, pv, pc, proposed, hst, hlrs, hpp, h1.symm⟩))
    case _ hlrs =>
      simp only [Except.ok.injEq, Prod.mk.injEq] at h
      obtain ⟨h1, h2⟩ := h
      subst h2
      exact Or.inr (Or.inl ⟨hlrs, by rw [← h1, set_state_self s1 _ hst.symm.symm], rfl⟩)
  case _ pv pc hst =>
    split at h
    case _ lrs hlrs =>
      simp only [prevote, if_true] at h
      simp only [Except.ok.injEq, Prod.mk.injEq] at h
      obtain ⟨h1, h2⟩ := h
      subst h2
      exact Or.inr (Or.inr (Or.inr (Or.inl ⟨pv, pc, hst, rfl, h1.symm⟩)))
    case _ hlrs =>
      simp only [Except.ok.injEq, Prod.mk.injEq] at h
      obtain ⟨h1, h2⟩ := h
      subst h2
      exact Or.inr (Or.inl ⟨hlrs, by rw [← h1, set_state_self s1 _ hst], rfl⟩)
  case _ pc hst =>
    split at h
    case _ lrs hlrs =>
      simp only [precommit, if_true] at h
      simp only [Except.ok.injEq, Prod.mk.injEq] at h
      obtain ⟨h1, h2⟩ := h
      subst h2
      exact Or.inr (Or.inr (Or.inr (Or.inr (Or.inl ⟨pc, hst, rfl, h1.symm⟩))))
    case _ hlrs =>
      simp only [Except.ok.injEq, Prod.mk.injEq] at h
      obtain ⟨h1, h2⟩ := h
      subst h2
      exact Or.inr (Or.inl ⟨hlrs, by rw [← h1, set_state_self s1 _ hst], rfl⟩)
  case _ hst =>
    simp only [Except.ok.injEq, Prod.mk.injEq] at h
    obtain ⟨h1, h2⟩ := h
    subst h2
    exact Or.inr (Or.inr (Or.inr (Or.inr (Or.inr ⟨hst,
      by rw [← h1, set_state_self s1 _ hst], rfl⟩))))
  case _ hst =>
    simp only [Except.ok.injEq, Prod.mk.injEq] at h
    obtain ⟨h1, h2⟩ := h
    subst h2
    exact Or.inl ⟨hst, by rw [← h1, set_state_self s1 _ hst], rfl⟩

theorem proposeCount_append (a b : List (Event H N Eqv)) :
    proposeCount (a ++ b) = proposeCount a + proposeCount b := by
  simp [proposeCount, List.filter_append]

theorem onlyPPS_append (a b : List (Event H N Eqv)) :
    only_primary_propose_sent (a ++ b) =
      (only_primary_propose_sent a && only_primary_propose_sent b) := by
  simp [only_primary_propose_sent, List.all_append]

theorem step_ok_inv {L : Ledger Id H N S Err Eqv St} {env : Env H N Err}
    {self : VotingRound Id H N S Eqv St} {i : Input H N S Id Err}
    {s2 : VotingRound Id H N S Eqv St} {evs : List (Event H N Eqv)}
    (h : step L env self i = .continuing s2 evs ∨
         step L env self i = .returned s2 evs) :
    ∃ s1 evs1 evs2, handle_inputs L env self i = .ok (s1, evs1) ∧
      phase_transition L env s1 (timerReady s1.state) = .ok (s2, evs2) ∧
      evs = evs1 ++ evs2 := by
  rcases h with h | h
  · unfold step at h
    split at h
    · exact (StepResult.noConfusion h)
    case _ s1 evs1 hin =>
      split at h
      · exact (StepResult.noConfusion h)
      case _ s2a evs2 hpt =>
        split at h
        · exact (StepResult.noConfusion h)
        · simp only [StepResult.continuing.injEq] at h
          obtain ⟨h1, h2⟩ := h
          subst h1
          exact ⟨s1, evs1, evs2, hin, hpt, h2.symm⟩
  · unfold step at h
    split at h
    · exact (StepResult.noConfusion h)
    case _ s1 evs1 hin =>
      split at h
      · exact (StepResult.noConfusion h)
      case _ s2a evs2 hpt =>
        split at h
        · simp only [StepResult.returned.injEq] at h
          obtain ⟨h1, h2⟩ := h
          subst h1
          exact ⟨s1, evs1, evs2, hin, hpt, h2.symm⟩
        · exact (StepResult.noConfusion h)

theorem step_returned_inv {L : Ledger Id H N S Err Eqv St} {env : Env H N Err}
    {self : VotingRound Id H N S Eqv St} {i : Input H N S Id Err}
    {s2 : VotingRound Id H N S Eqv St} {evs : List (Event H N Eqv)}
    (h : step L env self i = .returned s2 evs) :
    L.completable s2.round = true ∧
    last_round_estimate_finalized L s2 = true := by
  unfold step at h
  split at h
  · exact (StepResult.noConfusion h)
  case _ s1 evs1 hin =>
    split at h
    · exact (StepResult.noConfusion h)
    case _ s2a evs2 hpt =>
      split at h
      case isTrue hc =>
        simp only [StepResult.returned.injEq] at h
        obtain ⟨h1, h2⟩ := h
        subst h1
        rw [Bool.and_eq_true] at hc
        exact hc
      case isFalse hc =>
        exact (StepResult.noConfusion h)

theorem step_fatal_inv {L : Ledger Id H N S Err Eqv St} {env : Env H N Err}
    {self : VotingRound Id H N S Eqv St} {i : Input H N S Id Err}
    {e : Err} {evs : List (Event H N Eqv)}
    (h : step L env self i = .fatal e evs) :
    proposeCount evs = 0 ∧ only_primary_propose_sent evs = true := by
  unfold step at h
  split at h
  · simp only [StepResult.fatal.injEq] at h
    obtain ⟨h1, h2⟩ := h
    subst h2
    exact ⟨rfl, rfl⟩
  case _ s1 evs1 hin =>
    split at h
    · simp only [StepResult.fatal.injEq] at h
      obtain ⟨h1, h2⟩ := h
      obtain ⟨-, -, h4, h5⟩ := handle_inputs_ok hin
      subst h2
      exact ⟨h4, h5⟩
    case _ s2a evs2 hpt =>
      split at h <;> exact (StepResult.noConfusion h)

theorem step_trace {L : Ledger Id H N S Err Eqv St} {env : Env H N Err}
    {self : VotingRound Id H N S Eqv St} {i : Input H N S Id Err}
    {s2 : VotingRound Id H N S Eqv St} {evs : List (Event H N Eqv)}
    (h : step L env self i = .continuing s2 evs ∨
         step L env self i = .returned s2 evs) :
    s2.voting = self.voting ∧
    proposeCount evs ≤ 1 ∧
    only_primary_propose_sent evs = true ∧
    (canPropose self = false → proposeCount evs = 0 ∧ canPropose s2 = false) ∧
    (self.voting.is_primary = false → proposeCount evs = 0) ∧
    (1 ≤ proposeCount evs →
       (∃ pv pc, self.state = some (.start pv pc)) ∧
       self.voting.is_primary = true ∧ canPropose s2 = false) ∧
    (∀ p, self.state = some p → ∃ q, s2.state = some q ∧ p.rank ≤ q.rank) := by
  obtain ⟨s1, evs1, evs2, hin, hpt, hevs⟩ := step_ok_inv h
  obtain ⟨hrank, hvot, hcnt1, honly1⟩ := handle_inputs_ok hin
  subst hevs
  rw [proposeCount_append, onlyPPS_append, hcnt1, honly1]
  simp only [Nat.zero_add, Bool.true_and]
  have hcp1 : canPropose s1 = canPropose self := by
    unfold canPropose; rw [hrank]
  rcases phase_transition_cases hpt with
    ⟨hs1, he2, hev2⟩ | ⟨hlrs, he2, hev2⟩ | ⟨lrs, pv, pc, b, hs1, hlrs, hpp, he2⟩ |
    ⟨pv, pc, hs1, hev2, he2⟩ | ⟨pc, hs1, hev2, he2⟩ | ⟨hs1, he2, hev2⟩
  · -- phase absent: nothing happens
    subst hev2; subst he2
    refine ⟨hvot, Nat.zero_le 1, rfl, fun hf => ⟨rfl, by rw [hcp1]; exact hf⟩,
      fun _ => rfl, fun hh => absurd hh (Nat.not_succ_le_zero 0), ?_⟩
    intro p hp
    rw [hs1, hp] at hrank
    simp at hrank
  · -- no previous-round snapshot: phase unchanged
    subst hev2; subst he2
    refine ⟨hvot, Nat.zero_le 1, rfl, fun hf => ⟨rfl, by rw [hcp1]; exact hf⟩,
      fun _ => rfl, fun hh => absurd hh (Nat.not_succ_le_zero 0), ?_⟩
    intro p hp
    rw [hp] at hrank
    simp only [Option.map_some'] at hrank
    rcases Option.map_eq_some'.mp hrank with ⟨p1, hp1, hr1⟩
    exact ⟨p1, hp1, le_of_eq hr1.symm⟩
  · -- Start phase with a snapshot: primary_propose ran, phase advances
    obtain ⟨hb0, hb1, hcnt2, honly2⟩ := primary_propose_ok hpp
    subst he2
    have hstart : canPropose s1 = true := by
      simp [canPropose, hs1, State.rank]
    have hself0 : Option.map State.rank self.state = some 0 := by
      rw [← hrank, hs1]; rfl
    rcases Option.map_eq_some'.mp hself0 with ⟨p0, hp0, hr0⟩
    obtain ⟨a0, b0, hab⟩ := rank_eq_zero hr0
    refine ⟨hvot, hcnt2, honly2, ?_, ?_, ?_, ?_⟩
    · intro hf
      rw [← hcp1, hstart] at hf
      exact (Bool.noConfusion hf)
    · intro hf
      cases b with
      | false => rw [hb0 rfl]; rfl
      | true =>
        obtain ⟨hprim, -⟩ := hb1 rfl
        rw [hvot, hf] at hprim
        exact (Bool.noConfusion hprim)
    · intro hge
      refine ⟨⟨a0, b0, by rw [hp0, hab]⟩, ?_, rfl⟩
      cases b with
      | false =>
        rw [hb0 rfl] at hge
        exact absurd hge (by simp [proposeCount])
      | true =>
        obtain ⟨hprim, -⟩ := hb1 rfl
        rw [← hvot]
        exact hprim
    · intro p hp
      refine ⟨.prevoted pc, rfl, ?_⟩
      rw [hp] at hself0
      simp only [Option.map_some', Option.some.injEq] at hself0
      rw [hself0]
      exact Nat.zero_le 2
  · -- Proposed phase with a snapshot: phase advances to Prevoted
    subst hev2; subst he2
    refine ⟨hvot, Nat.zero_le 1, rfl, fun _ => ⟨rfl, rfl⟩,
      fun _ => rfl, fun hh => absurd hh (Nat.not_succ_le_zero 0), ?_⟩
    intro p hp
    rw [hp, hs1] at hrank
    simp only [Option.map_some', Option.some.injEq] at hrank
    refine ⟨.prevoted pc, rfl, ?_⟩
    rw [← hrank]
    exact Nat.le_succ 1
  · -- Prevoted phase with a snapshot: phase advances to Precommitted
    subst hev2; subst he2
    refine ⟨hvot, Nat.zero_le 1, rfl, fun _ => ⟨rfl, rfl⟩,
      fun _ => rfl, fun hh => absurd hh (Nat.not_succ_le_zero 0), ?_⟩
    intro p hp
    rw [hp, hs1] at hrank
    simp only [Option.map_some', Option.some.injEq] at hrank
    refine ⟨.precommitted, rfl, ?_⟩
    rw [← hrank]
    exact Nat.le_succ 2
  · -- Precommitted: idle
    subst hev2; subst he2
    refine ⟨hvot, Nat.zero_le 1, rfl,
      fun _ => ⟨rfl, by simp [canPropose, hs1, State.rank]⟩,
      fun _ => rfl, fun hh => absurd hh (Nat.not_succ_le_zero 0), ?_⟩
    intro p hp
    rw [hp, hs1] at hrank
    simp only [Option.map_some', Option.some.injEq] at hrank
    refine ⟨.precommitted, hs1, ?_⟩
    rw [← hrank]

theorem phase_transition_no_lrs (L : Ledger Id H N S Err Eqv St)
    (env : Env H N Err) (s1 : VotingRound Id H N S Eqv St) (r : Bool)
    (hn : s1.last_round_state = none) :
    phase_transition L env s1 r = .ok (s1, []) := by
  obtain ⟨vo, ro, st, pb, lr⟩ := s1
  replace hn : lr = none := hn
  subst hn
  rcases st with _ | p
  · rfl
  · cases p <;> rfl

theorem step_no_lrs {L : Ledger Id H N S Err Eqv St} {env : Env H N Err}
    {self : VotingRound Id H N S Eqv St} {i : Input H N S Id Err}
    {s1 : VotingRound Id H N S Eqv St} {evs1 : List (Event H N Eqv)}
    (hin : handle_inputs L env self i = .ok (s1, evs1))
    (hn : s1.last_round_state = none) :
    step L env self i = .continuing s1 evs1 ∨
    step L env self i = .returned s1 evs1 := by
  have hpt := phase_transition_no_lrs L env s1 (timerReady s1.state) hn
  unfold step
  simp only [hin, hpt]
  cases hc : (L.completable s1.round && last_round_estimate_finalized L s1) <;>
    simp [hc]

theorem step_precommitted_vote {L : Ledger Id H N S Err Eqv St}
    {env : Env H N Err} {self : VotingRound Id H N S Eqv St}
    {v : SignedMessage H N S Id}
    {s1 : VotingRound Id H N S Eqv St} {evs1 : List (Event H N Eqv)}
    (hpre : self.state = some .precommitted)
    (hv : handle_vote L env self v = .ok (s1, evs1)) :
    step L env self (.vote (.ok v)) = .continuing s1 evs1 ∨
    step L env self (.vote (.ok v)) = .returned s1 evs1 := by
  have hin : handle_inputs L env self (.vote (.ok v)) = .ok (s1, evs1) := hv
  have hs1 : s1.state = some .precommitted := by
    rw [(handle_vote_ok hv).1, hpre]
  have hpt : phase_transition L env s1 (timerReady s1.state) = .ok (s1, []) := by
    obtain ⟨vo, ro, st, pb, lr⟩ := s1
    replace hs1 : st = some State.precommitted := hs1
    subst hs1
    rfl
  unfold step
  simp only [hin, hpt]
  cases hc : (L.completable s1.round && last_round_estimate_finalized L s1) <;>
    simp [hc]

theorem run_trace (L : Ledger Id H N S Err Eqv St) (env : Env H N Err)
    (self : VotingRound Id H N S Eqv St) (inputs : List (Input H N S Id Err)) :
    proposeCount (run L env self inputs).2 ≤ 1 ∧
    (canPropose self = false → proposeCount (run L env self inputs).2 = 0) ∧
    (self.voting.is_primary = false → proposeCount (run L env self inputs).2 = 0) ∧
    only_primary_propose_sent (run L env self inputs).2 = true := by
  induction inputs generalizing self with
  | nil => exact ⟨Nat.zero_le 1, fun _ => rfl, fun _ => rfl, rfl⟩
  | cons i rest ih =>
    rcases hstep : step L env self i with ⟨e, evs0⟩ | ⟨s, evs0⟩ | ⟨s, evs0⟩
    · have hf := step_fatal_inv hstep
      simp only [run, hstep]
      exact ⟨by rw [hf.1]; exact Nat.zero_le 1, fun _ => hf.1, fun _ => hf.1, hf.2⟩
    · obtain ⟨hvot, hle, honly, hcp, hprim, hone, -⟩ := step_trace (Or.inr hstep)
      simp only [run, hstep]
      exact ⟨hle, fun hc => (hcp hc).1, hprim, honly⟩
    · obtain ⟨hvot, hle, honly, hcp, hprim, hone, -⟩ := step_trace (Or.inl hstep)
      obtain ⟨ih1, ih2, ih3, ih4⟩ := ih s
      simp only [run, hstep, proposeCount_append, onlyPPS_append]
      refine ⟨?_, ?_, ?_, by rw [honly, ih4]; rfl⟩
      · rcases Nat.eq_zero_or_pos (proposeCount evs0) with hz | hpos
        · rw [hz, Nat.zero_add]; exact ih1
        · have := (hone hpos).2.2
          rw [ih2 this]
          omega
      · intro hc
        obtain ⟨h0, hcs⟩ := hcp hc
        rw [h0, ih2 hcs]
      · intro hp
        rw [hprim hp, ih3 (by rw [hvot]; exact hp)]

theorem run_returned_inv (L : Ledger Id H N S Err Eqv St) (env : Env H N Err)
    (self : VotingRound Id H N S Eqv St) (inputs : List (Input H N S Id Err))
    (s2 : VotingRound Id H N S Eqv St) (evs : List (Event H N Eqv))
    (h : run L env self inputs = (.returned s2, evs)) :
    L.completable s2.round = true ∧
    last_round_estimate_finalized L s2 = true := by
  induction inputs generalizing self evs with
  | nil =>
    simp only [run, Prod.mk.injEq] at h
    exact absurd h.1 (by simp)
  | cons i rest ih =>
    rcases hstep : step L env self i with ⟨e, evs0⟩ | ⟨s, evs0⟩ | ⟨s, evs0⟩ <;>
      simp only [run, hstep, Prod.mk.injEq] at h
    · exact absurd h.1 (by simp)
    · obtain ⟨h1, h2⟩ := h
      rw [RunResult.returned.injEq] at h1
      subst h1
      exact step_returned_inv hstep
    · obtain ⟨h1, h2⟩ := h
      have hr : run L env s rest = (.returned s2, (run L env s rest).2) := by
        rw [← h1]
      exact ih s (run L env s rest).2 hr

theorem lref_spec {L : Ledger Id H N S Err Eqv St}
    {s : VotingRound Id H N S Eqv St}
    (h : last_round_estimate_finalized L s = true) :
    s.last_round_state = none ∨
    ∃ rs e, s.last_round_state = some rs ∧ rs.estimate = some e ∧
      ((∃ f, rs.finalized = some f ∧ e.2 ≤ f.2) ∨
       (∃ c, L.finalized s.round = some c ∧ e.2 ≤ c.2)) := by
  unfold last_round_estimate_finalized at h
  split at h
  case _ rs hrs =>
    split at h
    case _ le lf hle hlf =>
      rw [Bool.or_eq_true] at h
      rcases h with h | h
      · exact Or.inr ⟨rs, le, hrs, hle, Or.inl ⟨lf, hlf, of_decide_eq_true h⟩⟩
      · split at h
        case _ cf hcf =>
          exact Or.inr ⟨rs, le, hrs, hle, Or.inr ⟨cf, hcf, of_decide_eq_true h⟩⟩
        case _ => exact (Bool.noConfusion h)
    case _ => exact (Bool.noConfusion h)
  case _ hrs => exact Or.inl hrs

/-! ### Claims -/

/-- C1: `run` returns successfully only when the Round Ledger reports
completable and either no previous-round-state snapshot is currently
held, or the previous round's estimate exists and is finalized — the
previous round's finalized pointer is at or beyond it, or the current
round's ledger reports a finalized block at or beyond it. -/
theorem run_returns_only_when_safe
    (L : Ledger Id H N S Err Eqv St) (env : Env H N Err)
    (self : VotingRound Id H N S Eqv St) (inputs : List (Input H N S Id Err))
    (s2 : VotingRound Id H N S Eqv St) (evs : List (Event H N Eqv))
    (h : run L env self inputs = (.returned s2, evs)) :
    L.completable s2.round = true ∧
    (s2.last_round_state = none ∨
     ∃ rs e, s2.last_round_state = some rs ∧ rs.estimate = some e ∧
       ((∃ f, rs.finalized = some f ∧ e.2 ≤ f.2) ∨
        (∃ c, L.finalized s2.round = some c ∧ e.2 ≤ c.2))) := by
  obtain ⟨hc, hl⟩ := run_returned_inv L env self inputs s2 evs h
  exact ⟨hc, lref_spec hl⟩

/-- Witness for C1: a driver on a completable ledger with no snapshot
returns after one iteration, and the theorem's conclusion holds of it. -/
theorem run_returns_only_when_safe_witness :
    testLedger.completable doneSelf.round = true ∧
    (doneSelf.last_round_state = none ∨
     ∃ rs e, doneSelf.last_round_state = some rs ∧ rs.estimate = some e ∧
       ((∃ f, rs.finalized = some f ∧ e.2 ≤ f.2) ∨
        (∃ c, testLedger.finalized doneSelf.round = some c ∧ e.2 ≤ c.2))) :=
  run_returns_only_when_safe testLedger testEnv doneSelf [Input.timer]
    doneSelf [] rfl

/-- C2 (code behavior at the failing input): in `Prevoted` with the
precommit timer unfired and the round not completable, one loop
iteration still advances the driver to `Precommitted` while pushing no
message on the outgoing sink — the precommit decider answers `true`
unconditionally, so no precommit is cast and no gate is applied,
contradicting the claimed cast-exactly-once-when-safe policy. -/
theorem precommit_stub_advances_without_gate_or_message :
    precommit c2Self false lrs20 = (Except.ok true : Except Unit Bool) ∧
    timerReady c2Self.state = false ∧
    testLedger.completable c2Self.round = false ∧
    step testLedger testEnv c2Self (.vote (.ok lowVote)) =
      .continuing c2After [] :=
  ⟨rfl, rfl, rfl, rfl⟩

/-- C3: `primary_propose` notifies the Environment, pushes the hint and
answers `true` exactly when the driver is primary, the previous round's
estimate exists and it is strictly above the previous round's finalized
block (or nothing is finalized); in every other case it pushes nothing
and answers `false`. -/
theorem primary_propose_sends_iff
    (L : Ledger Id H N S Err Eqv St) (env : Env H N Err)
    (self : VotingRound Id H N S Eqv St) (lrs : RoundState H N) :
    (∀ est, lrs.estimate = some est → self.voting.is_primary = true →
      should_send_primary est lrs.finalized = true →
      env.proposed (L.number self.round) ⟨est.1, est.2⟩ = .ok () →
      env.send (.primaryPropose ⟨est.1, est.2⟩) = .ok () →
      primary_propose L env self lrs =
        .ok (true, [.proposedNote (L.number self.round) ⟨est.1, est.2⟩,
                    .sent (.primaryPropose ⟨est.1, est.2⟩)])) ∧
    (lrs.estimate = none → primary_propose L env self lrs = .ok (false, [])) ∧
    (self.voting.is_primary = false →
      primary_propose L env self lrs = .ok (false, [])) ∧
    (∀ est f, lrs.estimate = some est → lrs.finalized = some f → est.2 ≤ f.2 →
      primary_propose L env self lrs = .ok (false, [])) ∧
    (∀ b evs, primary_propose L env self lrs = .ok (b, evs) → b = true →
      self.voting.is_primary = true ∧ ∃ est, lrs.estimate = some est ∧
        (lrs.finalized = none ∨ ∃ f, lrs.finalized = some f ∧ f.2 < est.2)) := by
  refine ⟨?_, ?_, ?_, ?_, ?_⟩
  · intro est hE hP hsend hprop hout
    simp [primary_propose, hE, hP, hsend, hprop, hout]
  · intro hE
    cases hP : self.voting.is_primary <;> simp [primary_propose, hE, hP]
  · intro hP
    cases hE : lrs.estimate <;> simp [primary_propose, hE, hP]
  · intro est f hE hF hle
    have hss : should_send_primary est lrs.finalized = false := by
      simp [should_send_primary, hF]
      exact hle
    cases hP : self.voting.is_primary
    · simp [primary_propose, hE, hP]
    · simp [primary_propose, hE, hP, hss]
  · intro b evs h hb
    subst hb
    obtain ⟨-, hb1, -, -⟩ := primary_propose_ok h
    obtain ⟨hprim, est, hE, hsend, -⟩ := hb1 rfl
    exact ⟨hprim, est, hE, (should_send_primary_iff est lrs.finalized).mp hsend⟩

/-- Witness for C3: the primary driver with estimate `(20, 20)` and no
finalized block sends the hint; the non-primary driver sends nothing. -/
theorem primary_propose_sends_iff_witness :
    primary_propose testLedger testEnv pSelf lrs20 =
      .ok (true, [.proposedNote 5 ⟨20, 20⟩, .sent (.primaryPropose ⟨20, 20⟩)]) ∧
    primary_propose testLedger testEnv c2Self lrs20 = .ok (false, []) :=
  ⟨(primary_propose_sends_iff testLedger testEnv pSelf lrs20).1
      (20, 20) rfl rfl rfl rfl rfl,
   (primary_propose_sends_iff testLedger testEnv c2Self lrs20).2.2.1 rfl⟩

/-- C4: a signed message whose target is neither the round base nor a
descendant of it is dropped: `handle_vote` returns `Ok(())`, the ledger
and all other driver state are unchanged, and nothing is emitted. -/
theorem handle_vote_drops_non_descendant
    (L : Ledger Id H N S Err Eqv St) (env : Env H N Err)
    (self : VotingRound Id H N S Eqv St) (vote : SignedMessage H N S Id)
    (h : env.is_equal_or_descendent_of (L.base self.round).1
           vote.message.target.1 = false) :
    handle_vote L env self vote = .ok (self, []) := by
  simp [handle_vote, h]

/-- Witness for C4: a prevote for block `5` with round base `10` is
dropped without touching the driver. -/
theorem handle_vote_drops_non_descendant_witness :
    handle_vote testLedger testEnv c2Self lowVote = .ok (c2Self, []) :=
  handle_vote_drops_non_descendant testLedger testEnv c2Self lowVote rfl

/-- C5: phase transitions are monotonic — a loop iteration that does not
abort maps the current phase to one of equal or later rank under
`Start < Proposed < Prevoted < Precommitted`. -/
theorem step_phase_monotonic
    (L : Ledger Id H N S Err Eqv St) (env : Env H N Err)
    (self : VotingRound Id H N S Eqv St) (i : Input H N S Id Err)
    (s2 : VotingRound Id H N S Eqv St) (evs : List (Event H N Eqv)) (p : State)
    (hp : self.state = some p)
    (h : step L env self i = .continuing s2 evs ∨
         step L env self i = .returned s2 evs) :
    ∃ q, s2.state = some q ∧ p.rank ≤ q.rank :=
  (step_trace h).2.2.2.2.2.2 p hp

/-- Witness for C5: the `Prevoted` driver advances to `Precommitted`,
whose rank is at or above that of `Prevoted`. -/
theorem step_phase_monotonic_witness :
    ∃ q, c2After.state = some q ∧ (State.prevoted false).rank ≤ q.rank :=
  step_phase_monotonic testLedger testEnv c2Self (.vote (.ok lowVote))
    c2After [] (State.prevoted false) rfl (Or.inl rfl)

/-- C6: over any schedule, at most one `PrimaryPropose` is ever pushed
per round, none at all for a non-primary driver, and any iteration that
pushes one starts from the `Start` phase with the `Primary` role. -/
theorem primary_propose_at_most_once
    (L : Ledger Id H N S Err Eqv St) (env : Env H N Err)
    (self : VotingRound Id H N S Eqv St) (inputs : List (Input H N S Id Err)) :
    proposeCount (run L env self inputs).2 ≤ 1 ∧
    (self.voting.is_primary = false →
      proposeCount (run L env self inputs).2 = 0) ∧
    (∀ i s2 evs, (step L env self i = .continuing s2 evs ∨
        step L env self i = .returned s2 evs) →
      1 ≤ proposeCount evs →
      (∃ pv pc, self.state = some (.start pv pc)) ∧
      self.voting.is_primary = true) := by
  obtain ⟨h1, -, h3, -⟩ := run_trace L env self inputs
  refine ⟨h1, h3, ?_⟩
  intro i s2 evs h hge
  obtain ⟨hstart, hprim, -⟩ := (step_trace h).2.2.2.2.2.1 hge
  exact ⟨hstart, hprim⟩

/-- Witness for C6: the non-primary driver pushes no hint on a one-event
schedule, and the iteration in which the primary driver pushes its hint
starts from `Start` with the `Primary` role. -/
theorem primary_propose_at_most_once_witness :
    proposeCount (run testLedger testEnv c2Self [Input.timer]).2 = 0 ∧
    ((∃ pv pc, pSelf.state = some (.start pv pc)) ∧
     pSelf.voting.is_primary = true) :=
  ⟨(primary_propose_at_most_once testLedger testEnv c2Self [Input.timer]).2.1 rfl,
   (primary_propose_at_most_once testLedger testEnv pSelf []).2.2 Input.timer
      pAfter [.proposedNote 5 ⟨20, 20⟩, .sent (.primaryPropose ⟨20, 20⟩)]
      (Or.inl rfl) (by decide)⟩

/-- C7: an iteration whose post-input state holds no previous-round
snapshot leaves the whole driver — in particular the phase — exactly as
the input handling left it; and in `Precommitted` the driver idles in
the same phase while still consuming incoming votes. -/
theorem no_snapshot_keeps_phase
    (L : Ledger Id H N S Err Eqv St) (env : Env H N Err) :
    (∀ (self : VotingRound Id H N S Eqv St) (i : Input H N S Id Err) s1 evs1,
      handle_inputs L env self i = .ok (s1, evs1) →
      s1.last_round_state = none →
      step L env self i = .continuing s1 evs1 ∨
      step L env self i = .returned s1 evs1) ∧
    (∀ (self : VotingRound Id H N S Eqv St) (v : SignedMessage H N S Id)
        s1 evs1,
      self.state = some .precommitted →
      handle_vote L env self v = .ok (s1, evs1) →
      s1.state = some .precommitted ∧
      (step L env self (.vote (.ok v)) = .continuing s1 evs1 ∨
       step L env self (.vote (.ok v)) = .returned s1 evs1)) :=
  ⟨fun _ _ _ _ hin hn => step_no_lrs hin hn,
   fun _ _ _ _ hpre hv =>
     ⟨by rw [(handle_vote_ok hv).1, hpre], step_precommitted_vote hpre hv⟩⟩

/-- Witness for C7: with no snapshot the `Start` driver stays in `Start`
after its timer fires; the `Precommitted` driver consumes a vote whose
ledger intake reports an equivocation, and stays in `Precommitted`. -/
theorem no_snapshot_keeps_phase_witness :
    (step testLedger testEnv noLrsSelf Input.timer = .continuing noLrsAfter [] ∨
     step testLedger testEnv noLrsSelf Input.timer = .returned noLrsAfter []) ∧
    (preSelf.state = some State.precommitted ∧
     (step testLedger testEnv preSelf (.vote (.ok midVote)) =
        .continuing preSelf [.prevoteEquiv 5 ()] ∨
      step testLedger testEnv preSelf (.vote (.ok midVote)) =
        .returned preSelf [.prevoteEquiv 5 ()])) :=
  ⟨(no_snapshot_keeps_phase testLedger testEnv).1 noLrsSelf Input.timer
      noLrsAfter [] rfl rfl,
   (no_snapshot_keeps_phase testLedger testEnv).2 preSelf midVote
      preSelf [.prevoteEquiv 5 ()] rfl rfl⟩

/-- C8: when importing a prevote or precommit yields equivocation
evidence, `handle_vote` reports it to the Environment keyed by the round
number and still returns `Ok(())` with the imported ledger state. -/
theorem equivocation_reported_and_ok
    (L : Ledger Id H N S Err Eqv St) (env : Env H N Err)
    (self : VotingRound Id H N S Eqv St) :
    (∀ (p : Prevote H N) (sig : S) (id : Id) st2 e1,
      env.is_equal_or_descendent_of (L.base self.round).1 p.target_hash = true →
      L.import_prevote self.round p id sig = .ok (st2, ⟨some e1⟩) →
      handle_vote L env self ⟨.prevote p, sig, id⟩ =
        .ok ({ self with round := st2 }, [.prevoteEquiv (L.number st2) e1])) ∧
    (∀ (p : Precommit H N) (sig : S) (id : Id) st2 e1,
      env.is_equal_or_descendent_of (L.base self.round).1 p.target_hash = true →
      L.import_precommit self.round p id sig = .ok (st2, ⟨some e1⟩) →
      handle_vote L env self ⟨.precommit p, sig, id⟩ =
        .ok ({ self with round := st2 }, [.precommitEquiv (L.number st2) e1])) := by
  constructor <;>
    · intro p sig id st2 e1 hd him
      simp [handle_vote, Message.target, hd, him]

/-- Witness for C8: an equivocating prevote import is reported for round
`5` and handling still succeeds. -/
theorem equivocation_reported_and_ok_witness :
    handle_vote testLedger testEnv preSelf midVote =
      .ok (preSelf, [.prevoteEquiv 5 ()]) :=
  (equivocation_reported_and_ok testLedger testEnv preSelf).1
    ⟨15, 15⟩ 0 2 stEquiv () rfl rfl

/-- C9: a `PrimaryPropose` that passes the base filter caches its target
as the primary block exactly when the signer is the round's designated
primary voter; any other signer leaves the driver unchanged, and in both
cases `handle_vote` returns `Ok(())`. -/
theorem primary_hint_cached_iff_primary_signer
    (L : Ledger Id H N S Err Eqv St) (env : Env H N Err)
    (self : VotingRound Id H N S Eqv St) (p : PrimaryPropose H N)
    (sig : S) (id : Id)
    (hd : env.is_equal_or_descendent_of (L.base self.round).1
            p.target_hash = true) :
    handle_vote L env self ⟨.primaryPropose p, sig, id⟩ =
      .ok (if id = L.primaryVoter self.round
           then { self with
                  primary_block := some (p.target_hash, p.target_number) }
           else self, []) := by
  by_cases hid : id = L.primaryVoter self.round <;>
    simp [handle_vote, Message.target, hd, hid]

/-- Witness for C9: a hint signed by the designated primary voter `1` is
cached as the primary block. -/
theorem primary_hint_cached_iff_primary_signer_witness :
    handle_vote testLedger testEnv c2Self hintVote = .ok (c9After, []) :=
  primary_hint_cached_iff_primary_signer testLedger testEnv c2Self
    ⟨30, 30⟩ 0 1 rfl

/-- C10: the driver never pushes a prevote or precommit on the outgoing
sink — every sent message in every trace is a `PrimaryPropose` — and the
prevote and precommit deciders answer `Ok(true)` unconditionally. -/
theorem no_prevote_or_precommit_ever_sent
    (L : Ledger Id H N S Err Eqv St) (env : Env H N Err)
    (self : VotingRound Id H N S Eqv St) (inputs : List (Input H N S Id Err))
    (s : VotingRound Id H N S Eqv St) (ready : Bool) (lrs : RoundState H N) :
    only_primary_propose_sent (run L env self inputs).2 = true ∧
    prevote s ready lrs = (Except.ok true : Except Err Bool) ∧
    precommit s ready lrs = (Except.ok true : Except Err Bool) :=
  ⟨(run_trace L env self inputs).2.2.2, rfl, rfl⟩

end Grandpa
